import Mathlib

/-!
Verification of the fragments service core (fragment storage/versioning model
and format-conversion engine) against its natural-language specification.

JavaScript strings are embedded as lists of characters, byte buffers as lists
of natural numbers, and the asynchronous fallible operations as functions into
an explicit error monad.  Each definition mirrors one function of the source
(src/model/fragment.js, src/model/fragment-version.js, src/utils/converter.js,
src/model/data/memory/versions.js, src/model/data/aws/versions.js); external
libraries (JSON, js-yaml, sharp, markdown-it, the key-value stores) are either
parameters of the embedding or minimal models, marked as such.
-/

/-- A JavaScript string, embedded as its list of characters. -/
abbrev JStr := List Char

/-- Convenience: coerce a Lean string literal to the character-list embedding. -/
def strCL (s : String) : JStr := s.toList

/-- Model of the whitespace test used by JavaScript trimming (ASCII range:
space, tab, LF, CR, VT, FF); expressed on character codes. -/
def isWsChar (c : Char) : Bool :=
  c.toNat = 32 || c.toNat = 9 || c.toNat = 10 || c.toNat = 13 ||
  c.toNat = 11 || c.toNat = 12

/-- JavaScript String.prototype.trimStart on the character-list embedding. -/
def jsTrimLeft (s : JStr) : JStr := s.dropWhile isWsChar

/-- JavaScript String.prototype.trimEnd on the character-list embedding. -/
def jsTrimRight (s : JStr) : JStr := (s.reverse.dropWhile isWsChar).reverse

/-- JavaScript String.prototype.trim on the character-list embedding. -/
def jsTrim (s : JStr) : JStr := jsTrimLeft (jsTrimRight s)

/-- JavaScript String.prototype.toLowerCase, restricted to the ASCII letters
that occur in the MIME strings this repository manipulates. -/
def jsToLower (s : JStr) : JStr := s.map Char.toLower

/-- JavaScript s.startsWith(pre): does pre occur at the start of s. -/
def jsStartsWith : JStr → JStr → Bool
  | [], _ => true
  | _ :: _, [] => false
  | p :: ps, c :: cs => p = c && jsStartsWith ps cs

/-- JavaScript versionId.split(&quot;_v&quot;): split on every (leftmost,
non-overlapping) occurrence of the two-character separator underscore-v,
as used by FragmentVersion.parseVersionId. -/
def splitUV : JStr → List JStr
  | [] => [[]]
  | [c] => [[c]]
  | c1 :: c2 :: rest =>
    if c1 = '_' ∧ c2 = 'v' then [] :: splitUV rest
    else
      match splitUV (c2 :: rest) with
      | [] => [[c1]]
      | h :: t => (c1 :: h) :: t

/-- Whether the underscore-v separator occurs anywhere in the string. -/
def hasUV : JStr → Bool
  | [] => false
  | [_] => false
  | c1 :: c2 :: rest => (c1 = '_' && c2 = 'v') || hasUV (c2 :: rest)

/-- Decimal digit test, as character-code range 48..57. -/
def isDigitChar (c : Char) : Bool := 48 ≤ c.toNat && c.toNat ≤ 57

/-- Numeric value of a decimal digit character. -/
def digitVal (c : Char) : Nat := c.toNat - 48

/-- Accumulate the numeric value of a run of decimal digit characters. -/
def jsDigitsToNat (ds : JStr) : Nat := ds.foldl (fun a c => 10 * a + digitVal c) 0

/-- The longest leading run of decimal digits, as a number; none when the
run is empty (JavaScript parseInt would produce NaN). -/
def parseUnsignedInt10 (s : JStr) : Option Nat :=
  let ds := s.takeWhile isDigitChar
  if ds.isEmpty then none else some (jsDigitsToNat ds)

/-- Model of JavaScript parseInt(s, 10): skip leading whitespace, read an
optional sign and then the longest run of decimal digits; none models NaN. -/
def jsParseInt10 (s : JStr) : Option Int :=
  match jsTrimLeft s with
  | [] => none
  | c :: rest =>
    if c = '-' then (parseUnsignedInt10 rest).map (fun v => -(v : Int))
    else if c = '+' then (parseUnsignedInt10 rest).map (fun v => (v : Int))
    else (parseUnsignedInt10 (c :: rest)).map (fun v => (v : Int))

/-- The decimal digit character for a value below ten. -/
def digitChar : Nat → Char
  | 0 => '0'
  | 1 => '1'
  | 2 => '2'
  | 3 => '3'
  | 4 => '4'
  | 5 => '5'
  | 6 => '6'
  | 7 => '7'
  | 8 => '8'
  | 9 => '9'
  | _ => '?'

/-- Decimal representation of a natural number, as produced by a JavaScript
template literal for a nonnegative integer. -/
def natDigits (n : Nat) : JStr :=
  if n < 10 then [digitChar n]
  else natDigits (n / 10) ++ [digitChar (n % 10)]
decreasing_by
  exact Nat.div_lt_self (by omega) (by omega)

/-- Result of FragmentVersion.parseVersionId: the embedded fragment id and the
parsed version number (a JavaScript number, possibly negative). -/
structure ParsedVersionId where
  fragmentId : JStr
  versionNum : Int
deriving DecidableEq

/-- The two distinct errors thrown by FragmentVersion.parseVersionId:
invalidFormat models the message starting with the words Invalid version ID
format, invalidVersionNumber the one starting with Invalid version number. -/
inductive VersionIdError
  | invalidFormat
  | invalidVersionNumber
deriving DecidableEq

/-- FragmentVersion.toVersionId: the template literal joining the fragment id,
the underscore-v separator and the decimal version number. -/
def toVersionId (fragmentId : JStr) (versionNum : Nat) : JStr :=
  fragmentId ++ '_' :: 'v' :: natDigits versionNum

/-- FragmentVersion.parseVersionId: split on the underscore-v separator;
anything but exactly two parts is the format error, a NaN parseInt of the
second part is the version-number error, otherwise both pieces are returned. -/
def parseVersionId (versionId : JStr) : Except VersionIdError ParsedVersionId :=
  match splitUV versionId with
  | [fid, numPart] =>
    match jsParseInt10 numPart with
    | none => .error .invalidVersionNumber
    | some n => .ok ⟨fid, n⟩
  | _ => .error .invalidFormat

-- Basic facts about the split on the underscore-v separator.

theorem splitUV_ne_nil (s : JStr) : splitUV s ≠ [] := by
  match s with
  | [] => simp [splitUV]
  | [c] => simp [splitUV]
  | c1 :: c2 :: rest =>
    rw [splitUV]
    split
    · simp
    · have := splitUV_ne_nil (c2 :: rest)
      cases h : splitUV (c2 :: rest) with
      | nil => exact absurd h this
      | cons h t => simp

theorem splitUV_no_sep (s : JStr) (h : hasUV s = false) : splitUV s = [s] := by
  match s with
  | [] => simp [splitUV]
  | [c] => simp [splitUV]
  | c1 :: c2 :: rest =>
    rw [hasUV] at h
    simp only [Bool.or_eq_false_iff, Bool.and_eq_false_iff] at h
    obtain ⟨h1, h2⟩ := h
    rw [splitUV]
    have hcond : ¬(c1 = '_' ∧ c2 = 'v') := by
      intro ⟨ha, hb⟩
      rcases h1 with h1 | h1 <;> simp [ha, hb] at h1
    rw [if_neg hcond]
    rw [splitUV_no_sep (c2 :: rest) h2]

theorem splitUV_append_sep (f d : JStr) (hf : hasUV f = false) :
    splitUV (f ++ '_' :: 'v' :: d) = f :: splitUV d := by
  match f with
  | [] =>
    simp only [List.nil_append]
    rw [splitUV, if_pos ⟨rfl, rfl⟩]
  | [c] =>
    simp only [List.cons_append, List.nil_append]
    rw [splitUV]
    have hcond : ¬(c = '_' ∧ '_' = 'v') := by
      intro ⟨_, hb⟩
      exact absurd hb (by decide)
    rw [if_neg hcond]
    rw [splitUV, if_pos ⟨rfl, rfl⟩]
  | c1 :: c2 :: rest =>
    rw [hasUV] at hf
    simp only [Bool.or_eq_false_iff, Bool.and_eq_false_iff] at hf
    obtain ⟨h1, h2⟩ := hf
    have hcond : ¬(c1 = '_' ∧ c2 = 'v') := by
      intro ⟨ha, hb⟩
      rcases h1 with h1 | h1 <;> simp [ha, hb] at h1
    simp only [List.cons_append]
    rw [splitUV, if_neg hcond]
    have ih := splitUV_append_sep (c2 :: rest) d h2
    simp only [List.cons_append] at ih
    rw [ih]

theorem hasUV_of_no_underscore (s : JStr) (h : ∀ c ∈ s, c ≠ '_') :
    hasUV s = false := by
  match s with
  | [] => rfl
  | [c] => rfl
  | c1 :: c2 :: rest =>
    rw [hasUV]
    have h1 : c1 ≠ '_' := h c1 (by simp)
    have h2 : ∀ c ∈ c2 :: rest, c ≠ '_' := fun c hc => h c (by simp [hc])
    simp only [Bool.or_eq_false_iff, Bool.and_eq_false_iff]
    exact ⟨Or.inl (by simpa using h1), hasUV_of_no_underscore (c2 :: rest) h2⟩

-- Facts about decimal digits and parseInt.

theorem digitVal_digitChar {d : Nat} (h : d < 10) : digitVal (digitChar d) = d := by
  interval_cases d <;> rfl

theorem isDigitChar_digitChar {d : Nat} (h : d < 10) :
    isDigitChar (digitChar d) = true := by
  interval_cases d <;> rfl

theorem natDigits_all_digits (n : Nat) : ∀ c ∈ natDigits n, isDigitChar c = true := by
  rw [natDigits]
  split
  · intro c hc
    simp only [List.mem_singleton] at hc
    subst hc
    exact isDigitChar_digitChar (by omega)
  · intro c hc
    rw [List.mem_append] at hc
    rcases hc with hc | hc
    · exact natDigits_all_digits (n / 10) c hc
    · simp only [List.mem_singleton] at hc
      subst hc
      exact isDigitChar_digitChar (Nat.mod_lt _ (by omega))
decreasing_by
  exact Nat.div_lt_self (by omega) (by omega)

theorem natDigits_ne_nil (n : Nat) : natDigits n ≠ [] := by
  rw [natDigits]
  split
  · simp
  · simp

theorem jsDigitsToNat_append (l : JStr) (c : Char) :
    jsDigitsToNat (l ++ [c]) = 10 * jsDigitsToNat l + digitVal c := by
  simp [jsDigitsToNat, List.foldl_append]

theorem jsDigitsToNat_natDigits (n : Nat) : jsDigitsToNat (natDigits n) = n := by
  rw [natDigits]
  split
  · simp only [jsDigitsToNat, List.foldl_cons, List.foldl_nil]
    rw [digitVal_digitChar (by omega)]
    omega
  · rw [jsDigitsToNat_append, jsDigitsToNat_natDigits (n / 10),
      digitVal_digitChar (Nat.mod_lt _ (by omega))]
    omega
decreasing_by
  exact Nat.div_lt_self (by omega) (by omega)

theorem isDigitChar_not_ws {c : Char} (h : isDigitChar c = true) :
    isWsChar c = false := by
  simp only [isDigitChar, Bool.and_eq_true, decide_eq_true_eq] at h
  simp only [isWsChar, Bool.or_eq_false_iff, decide_eq_false_iff_not]
  omega

theorem isDigitChar_not_sign {c : Char} (h : isDigitChar c = true) :
    c ≠ '-' ∧ c ≠ '+' ∧ c ≠ '_' := by
  simp only [isDigitChar, Bool.and_eq_true, decide_eq_true_eq] at h
  refine ⟨?_, ?_, ?_⟩ <;> intro hc <;> subst hc <;> simp at h <;> omega

theorem takeWhile_all (p : Char → Bool) (l : JStr) (h : ∀ c ∈ l, p c = true) :
    l.takeWhile p = l := by
  induction l with
  | nil => rfl
  | cons c rest ih =>
    have hc := h c (by simp)
    have hrest := ih fun x hx => h x (by simp [hx])
    simp [List.takeWhile_cons, hc, hrest]

theorem jsParseInt10_digits (l : JStr) (hne : l ≠ [])
    (hd : ∀ c ∈ l, isDigitChar c = true) :
    jsParseInt10 l = some ((jsDigitsToNat l : Int)) := by
  match l with
  | [] => exact absurd rfl hne
  | c :: rest =>
    have hc : isDigitChar c = true := hd c (by simp)
    have htrim : jsTrimLeft (c :: rest) = c :: rest := by
      simp [jsTrimLeft, List.dropWhile_cons, isDigitChar_not_ws hc]
    obtain ⟨hm, hp, _⟩ := isDigitChar_not_sign hc
    have hu : parseUnsignedInt10 (c :: rest) = some (jsDigitsToNat (c :: rest)) := by
      rw [parseUnsignedInt10]
      simp only [takeWhile_all isDigitChar (c :: rest) hd]
      simp
    simp only [jsParseInt10, htrim, if_neg hm, if_neg hp, hu]
    simp

/-- Claim C6: toVersionId and parseVersionId are inverses: for every fragment
id without a literal underscore-v substring and every positive integer n,
parsing the generated version id returns exactly the fragment id and n. -/
theorem parseVersionId_toVersionId (f : JStr) (n : Nat)
    (hf : hasUV f = false) (hn : 0 < n) :
    parseVersionId (toVersionId f n) = .ok ⟨f, (n : Int)⟩ := by
  have hdig := natDigits_all_digits n
  have h1 : splitUV (toVersionId f n) = [f, natDigits n] := by
    rw [toVersionId, splitUV_append_sep f _ hf,
      splitUV_no_sep (natDigits n)
        (hasUV_of_no_underscore _ fun c hc => (isDigitChar_not_sign (hdig c hc)).2.2)]
  simp only [parseVersionId, h1,
    jsParseInt10_digits (natDigits n) (natDigits_ne_nil n) hdig,
    jsDigitsToNat_natDigits]

/-- Witness for C6 at a concrete input: the id used by the repository's own
unit test, fragment-123 with version number 5. -/
theorem parseVersionId_toVersionId_witness :
    parseVersionId (toVersionId (strCL "fragment-123") 5) =
      .ok ⟨strCL "fragment-123", (5 : Int)⟩ :=
  parseVersionId_toVersionId (strCL "fragment-123") 5 (by decide) (by decide)

/-- Claim C5, counterexample: the string id_v12abc does not match the pattern
fragmentId underscore-v positiveInteger (its suffix after the separator is not
an integer), yet parseVersionId accepts it, returning version number 12 —
parseInt takes the longest digit run and ignores the trailing letters.  So not
every non-matching string is rejected. -/
theorem parseVersionId_trailing_garbage_accepted :
    parseVersionId (strCL "id_v12abc") = .ok ⟨strCL "id", (12 : Int)⟩ := by
  rfl

/-- Claim C5, amended: parseVersionId fails with the format error exactly when
splitting on the underscore-v separator does not give two parts, and with the
distinct version-number error exactly when it gives two parts whose second has
no leading decimal integer per parseInt (e.g. id_vNaN); strings whose tail
merely starts with digits, such as id_v12abc, are parsed rather than
rejected, and the sign or magnitude of the number is never checked. -/
theorem parseVersionId_error_characterization (s : JStr) :
    (parseVersionId s = .error .invalidFormat ↔ (splitUV s).length ≠ 2) ∧
    (parseVersionId s = .error .invalidVersionNumber ↔
      ∃ a b, splitUV s = [a, b] ∧ jsParseInt10 b = none) := by
  rcases hs : splitUV s with _ | ⟨a, t1⟩
  · exact absurd hs (splitUV_ne_nil s)
  rcases t1 with _ | ⟨b, t2⟩
  · simp [parseVersionId, hs]
  rcases t2 with _ | ⟨c, t3⟩
  · rcases hpb : jsParseInt10 b with _ | n
    · constructor
      · simp [parseVersionId, hs, hpb]
      · simp only [parseVersionId, hs, hpb]
        exact iff_of_true trivial ⟨a, b, rfl, hpb⟩
    · simp [parseVersionId, hs, hpb]
  · simp [parseVersionId, hs]

/-!
Converter Engine (src/utils/converter.js).  Byte buffers are lists of byte
values; the external libraries the converter calls (Buffer utf-8 codecs,
markdown-it, JSON.parse / JSON.stringify, js-yaml, sharp) are not part of this
repository, so the engine is parametrised by their behavior (a ConvExternals
record, with an abstract type of parsed JSON/YAML documents); a failing
Option/Except result models a thrown exception.
-/

/-- A Node.js byte buffer, embedded as its list of byte values. -/
abbrev Bytes := List Nat

/-- The buffer holding the ASCII text of a Lean string literal. -/
def asciiBytes (s : String) : Bytes := s.toList.map Char.toNat

/-- The five encoder pipelines the image converter selects on a sharp
instance. -/
inductive SharpCodec
  | png
  | jpeg
  | webp
  | gif
  | avif
deriving DecidableEq

/-- Behavior of the external libraries used by the converter: utf-8 codecs of
Buffer, markdown-it render, JSON.parse (none models a thrown parse error) and
the two JSON.stringify shapes used, js-yaml load/dump, JSON.stringify on the
rows built by the CSV conversion, and the sharp decode-and-re-encode pipeline
(error models a thrown codec failure, carrying its message).  J is the
abstract type of parsed JSON/YAML documents. -/
structure ConvExternals (J : Type) where
  utf8Decode : Bytes → JStr
  utf8Encode : JStr → Bytes
  markdownRender : JStr → JStr
  jsonParse : JStr → Option J
  jsonStringifyPretty : J → JStr
  jsonStringifyCompact : J → JStr
  yamlLoad : JStr → Option J
  yamlDump : J → JStr
  stringifyRows : List (List (JStr × Option JStr)) → JStr
  sharpEncode : Bytes → SharpCodec → Except JStr Bytes

/-- JavaScript s.split(sep) for a single-character separator, as used by the
CSV conversion on newline and comma. -/
def splitOnChar (sep : Char) : JStr → List JStr
  | [] => [[]]
  | c :: rest =>
    if c = sep then [] :: splitOnChar sep rest
    else
      match splitOnChar sep rest with
      | [] => [[c]]
      | h :: t => (c :: h) :: t

/-- Remainder of the string after the first closing angle bracket, if any. -/
def findGT : JStr → Option JStr
  | [] => none
  | c :: rest => if c = '>' then some rest else findGT rest

theorem findGT_length : ∀ s r : JStr, findGT s = some r → r.length < s.length := by
  intro s
  induction s with
  | nil => intro r h; simp [findGT] at h
  | cons c rest ih =>
    intro r h
    rw [findGT] at h
    by_cases hc : c = '>'
    · rw [if_pos hc] at h
      cases h
      simp
    · rw [if_neg hc] at h
      have := ih r h
      simp only [List.length_cons]
      omega

/-- The global regex replacement of every tag-shaped span (an opening angle
bracket, any run without a closing one, then a closing one) by a single
space, from the HTML-to-text conversion. -/
def stripTags (s : JStr) : JStr :=
  match s with
  | [] => []
  | c :: rest =>
    if c = '<' then
      match hGT : findGT rest with
      | some rem => ' ' :: stripTags rem
      | none => c :: stripTags rest
    else c :: stripTags rest
termination_by s.length
decreasing_by
  · simp only [List.length_cons]
    have := findGT_length rest rem hGT
    omega
  · simp
  · simp

theorem dropWhile_length_le (p : Char → Bool) (l : JStr) :
    (l.dropWhile p).length ≤ l.length := by
  induction l with
  | nil => simp
  | cons c rest ih =>
    rw [List.dropWhile_cons]
    by_cases hc : p c = true
    · rw [if_pos hc]
      simp only [List.length_cons]
      omega
    · rw [if_neg hc]

/-- The global regex replacement collapsing every whitespace run into one
space, from the HTML-to-text conversion. -/
def collapseWs (s : JStr) : JStr :=
  match s with
  | [] => []
  | c :: rest =>
    if isWsChar c then ' ' :: collapseWs (rest.dropWhile isWsChar)
    else c :: collapseWs rest
termination_by s.length
decreasing_by
  · simp only [List.length_cons]
    have := dropWhile_length_le isWsChar rest
    omega
  · simp

/-- convertMarkdown: render to html, re-encode the text unchanged for txt,
and return the original buffer for any other target. -/
def convertMarkdown {J : Type} (E : ConvExternals J) (data : Bytes) (targetExt : JStr) :
    Bytes :=
  let text := E.utf8Decode data
  if targetExt = strCL "html" then E.utf8Encode (E.markdownRender text)
  else if targetExt = strCL "txt" then E.utf8Encode text
  else data

/-- convertHtml: strip tags, collapse whitespace and trim for txt, and return
the original buffer for any other target. -/
def convertHtml {J : Type} (E : ConvExternals J) (data : Bytes) (targetExt : JStr) :
    Bytes :=
  let html := E.utf8Decode data
  if targetExt = strCL "txt" then E.utf8Encode (jsTrim (collapseWs (stripTags html)))
  else data

/-- convertCsv: for json, split the trimmed text into lines, the first line
into trimmed headers, each later line into trimmed values, pair each header
with the value at its index (possibly missing), and stringify the rows; for
txt and for every other target the original buffer is returned. -/
def convertCsv {J : Type} (E : ConvExternals J) (data : Bytes) (targetExt : JStr) :
    Except JStr Bytes :=
  let csv := E.utf8Decode data
  if targetExt = strCL "json" then
    let lines := splitOnChar '\n' (jsTrim csv)
    let headers := (splitOnChar ',' (lines.headD [])).map jsTrim
    let result := lines.tail.map fun line =>
      let values := (splitOnChar ',' line).map jsTrim
      headers.enum.map fun p => (p.2, values.get? p.1)
    .ok (E.utf8Encode (E.stringifyRows result))
  else .ok data

/-- convertJson: parse first (a failure is the conversion error), then
pretty-print for txt, dump as YAML for yaml/yml, and return the original
buffer for any other target. -/
def convertJson {J : Type} (E : ConvExternals J) (data : Bytes) (targetExt : JStr) :
    Except JStr Bytes :=
  match E.jsonParse (E.utf8Decode data) with
  | none => .error (strCL "Unable to convert JSON data")
  | some json =>
    if targetExt = strCL "txt" then .ok (E.utf8Encode (E.jsonStringifyPretty json))
    else if targetExt = strCL "yaml" ∨ targetExt = strCL "yml" then
      .ok (E.utf8Encode (E.yamlDump json))
    else .ok data

/-- convertYaml: parse first (a failure is the conversion error), then
serialize as compact JSON for json; txt and every other target return the
original buffer. -/
def convertYaml {J : Type} (E : ConvExternals J) (data : Bytes) (targetExt : JStr) :
    Except JStr Bytes :=
  match E.yamlLoad (E.utf8Decode data) with
  | none => .error (strCL "Unable to convert YAML data")
  | some parsedData =>
    if targetExt = strCL "json" then .ok (E.utf8Encode (E.jsonStringifyCompact parsedData))
    else .ok data

/-- convertImage: the five recognized codec extensions re-encode through
sharp; only an unrecognized extension reaches the default case, where a
source type equal to image/ followed by the extension returns the original
buffer and anything else re-encodes to PNG; failures are wrapped with the
Unable-to-convert-image message. -/
def convertImage {J : Type} (E : ConvExternals J) (data : Bytes)
    (sourceType targetExt : JStr) : Except JStr Bytes :=
  let encoded : Except JStr Bytes :=
    if targetExt = strCL "png" then E.sharpEncode data .png
    else if targetExt = strCL "jpg" ∨ targetExt = strCL "jpeg" then
      E.sharpEncode data .jpeg
    else if targetExt = strCL "webp" then E.sharpEncode data .webp
    else if targetExt = strCL "gif" then E.sharpEncode data .gif
    else if targetExt = strCL "avif" then E.sharpEncode data .avif
    else if sourceType = strCL "image/" ++ targetExt then .ok data
    else E.sharpEncode data .png
  encoded.mapError fun m => strCL "Unable to convert image: " ++ m

/-- The uniform wrapping of a synchronous conversion failure. -/
def convWrap (m : JStr) : JStr := strCL "Conversion error: " ++ m

/-- convertData: strip MIME parameters from the source type, dispatch by
source family, return the buffer unchanged when no family matches.  The
synchronous converters throw inside the try block, so their failures get the
Conversion-error wrapping; convertImage is asynchronous and its returned
promise's rejection escapes the try/catch, so image failures pass through
unwrapped. -/
def convertData {J : Type} (E : ConvExternals J) (data : Bytes)
    (sourceType targetExt : JStr) : Except JStr Bytes :=
  let baseSourceType := jsTrim (sourceType.takeWhile fun c => c != ';')
  if baseSourceType = strCL "text/markdown" then .ok (convertMarkdown E data targetExt)
  else if baseSourceType = strCL "text/html" then .ok (convertHtml E data targetExt)
  else if baseSourceType = strCL "text/csv" then
    (convertCsv E data targetExt).mapError convWrap
  else if baseSourceType = strCL "application/json" then
    (convertJson E data targetExt).mapError convWrap
  else if baseSourceType = strCL "application/yaml" ∨
      baseSourceType = strCL "application/yml" then
    (convertYaml E data targetExt).mapError convWrap
  else if jsStartsWith (strCL "image/") baseSourceType then
    convertImage E data baseSourceType targetExt
  else .ok data

/-- getMimeType: the extension-to-MIME table, with the generic binary type
for unknown extensions. -/
def getMimeType (extension : JStr) : JStr :=
  if extension = strCL "txt" then strCL "text/plain"
  else if extension = strCL "md" then strCL "text/markdown"
  else if extension = strCL "html" then strCL "text/html"
  else if extension = strCL "csv" then strCL "text/csv"
  else if extension = strCL "json" then strCL "application/json"
  else if extension = strCL "yaml" then strCL "application/yaml"
  else if extension = strCL "yml" then strCL "application/yaml"
  else if extension = strCL "png" then strCL "image/png"
  else if extension = strCL "jpg" then strCL "image/jpeg"
  else if extension = strCL "jpeg" then strCL "image/jpeg"
  else if extension = strCL "webp" then strCL "image/webp"
  else if extension = strCL "avif" then strCL "image/avif"
  else if extension = strCL "gif" then strCL "image/gif"
  else strCL "application/octet-stream"

-- Which extensions imply each source MIME type under getMimeType.

theorem getMimeType_mem (ext : JStr) :
    ext ∈ [strCL "txt", strCL "md", strCL "html", strCL "csv", strCL "json",
      strCL "yaml", strCL "yml", strCL "png", strCL "jpg", strCL "jpeg",
      strCL "webp", strCL "avif", strCL "gif"] ∨
    getMimeType ext = strCL "application/octet-stream" := by
  by_cases h1 : ext = strCL "txt"
  · exact Or.inl (by rw [h1]; decide)
  by_cases h2 : ext = strCL "md"
  · exact Or.inl (by rw [h2]; decide)
  by_cases h3 : ext = strCL "html"
  · exact Or.inl (by rw [h3]; decide)
  by_cases h4 : ext = strCL "csv"
  · exact Or.inl (by rw [h4]; decide)
  by_cases h5 : ext = strCL "json"
  · exact Or.inl (by rw [h5]; decide)
  by_cases h6 : ext = strCL "yaml"
  · exact Or.inl (by rw [h6]; decide)
  by_cases h7 : ext = strCL "yml"
  · exact Or.inl (by rw [h7]; decide)
  by_cases h8 : ext = strCL "png"
  · exact Or.inl (by rw [h8]; decide)
  by_cases h9 : ext = strCL "jpg"
  · exact Or.inl (by rw [h9]; decide)
  by_cases h10 : ext = strCL "jpeg"
  · exact Or.inl (by rw [h10]; decide)
  by_cases h11 : ext = strCL "webp"
  · exact Or.inl (by rw [h11]; decide)
  by_cases h12 : ext = strCL "avif"
  · exact Or.inl (by rw [h12]; decide)
  by_cases h13 : ext = strCL "gif"
  · exact Or.inl (by rw [h13]; decide)
  refine Or.inr ?_
  rw [getMimeType, if_neg h1, if_neg h2, if_neg h3, if_neg h4, if_neg h5, if_neg h6,
    if_neg h7, if_neg h8, if_neg h9, if_neg h10, if_neg h11, if_neg h12, if_neg h13]

theorem getMimeType_markdown {ext : JStr}
    (hmime : getMimeType ext = strCL "text/markdown") : ext = strCL "md" := by
  rcases getMimeType_mem ext with hm | hoct
  · simp only [List.mem_cons, List.not_mem_nil, or_false] at hm
    rcases hm with h|h|h|h|h|h|h|h|h|h|h|h|h <;> subst h <;>
      first
      | rfl
      | exact absurd hmime (by decide)
  · exact absurd (hoct.symm.trans hmime) (by decide)

theorem getMimeType_html {ext : JStr}
    (hmime : getMimeType ext = strCL "text/html") : ext = strCL "html" := by
  rcases getMimeType_mem ext with hm | hoct
  · simp only [List.mem_cons, List.not_mem_nil, or_false] at hm
    rcases hm with h|h|h|h|h|h|h|h|h|h|h|h|h <;> subst h <;>
      first
      | rfl
      | exact absurd hmime (by decide)
  · exact absurd (hoct.symm.trans hmime) (by decide)

theorem getMimeType_csv {ext : JStr}
    (hmime : getMimeType ext = strCL "text/csv") : ext = strCL "csv" := by
  rcases getMimeType_mem ext with hm | hoct
  · simp only [List.mem_cons, List.not_mem_nil, or_false] at hm
    rcases hm with h|h|h|h|h|h|h|h|h|h|h|h|h <;> subst h <;>
      first
      | rfl
      | exact absurd hmime (by decide)
  · exact absurd (hoct.symm.trans hmime) (by decide)

theorem getMimeType_json {ext : JStr}
    (hmime : getMimeType ext = strCL "application/json") : ext = strCL "json" := by
  rcases getMimeType_mem ext with hm | hoct
  · simp only [List.mem_cons, List.not_mem_nil, or_false] at hm
    rcases hm with h|h|h|h|h|h|h|h|h|h|h|h|h <;> subst h <;>
      first
      | rfl
      | exact absurd hmime (by decide)
  · exact absurd (hoct.symm.trans hmime) (by decide)

theorem getMimeType_yaml {ext : JStr}
    (hmime : getMimeType ext = strCL "application/yaml") :
    ext = strCL "yaml" ∨ ext = strCL "yml" := by
  rcases getMimeType_mem ext with hm | hoct
  · simp only [List.mem_cons, List.not_mem_nil, or_false] at hm
    rcases hm with h|h|h|h|h|h|h|h|h|h|h|h|h <;> subst h <;>
      first
      | exact Or.inl rfl
      | exact Or.inr rfl
      | exact absurd hmime (by decide)
  · exact absurd (hoct.symm.trans hmime) (by decide)

/-- One possible behavior of the external libraries, agreeing with the real
ones at the inputs used below: JSON.parse and js-yaml load throw on the
one-character text x (not valid JSON or a valid one-element document — in
fact this instance rejects everything), and sharp rejects the one-byte
buffer as not being a decodable image. -/
def extFail : ConvExternals Unit where
  utf8Decode := fun bs => bs.map Char.ofNat
  utf8Encode := fun s => s.map Char.toNat
  markdownRender := id
  jsonParse := fun _ => none
  jsonStringifyPretty := fun _ => []
  jsonStringifyCompact := fun _ => []
  yamlLoad := fun _ => none
  yamlDump := fun _ => []
  stringifyRows := fun _ => []
  sharpEncode := fun _ _ => .error (strCL "Input buffer contains unsupported image format")

/-- One possible behavior of the external libraries, agreeing with the real
ones at the inputs used below: JSON.parse succeeds on the numeral text 1
(a valid JSON document). -/
def extOk : ConvExternals Unit where
  utf8Decode := fun bs => bs.map Char.ofNat
  utf8Encode := fun s => s.map Char.toNat
  markdownRender := id
  jsonParse := fun s => if s = strCL "1" then some () else none
  jsonStringifyPretty := fun _ => strCL "1"
  jsonStringifyCompact := fun _ => strCL "1"
  yamlLoad := fun s => if s = strCL "1" then some () else none
  yamlDump := fun _ => strCL "1"
  stringifyRows := fun _ => []
  sharpEncode := fun b _ => .ok b

/-- Claim C1, counterexample: identity-target conversions are not always the
original buffer.  With the json extension (implied type application/json) on
a buffer that is not valid JSON, convertData raises the wrapped conversion
error instead of returning the data; and with the png extension (implied type
image/png) on a png-typed source, convertData re-encodes through sharp — the
identity shortcut is unreachable for the five codec extensions — so an
undecodable buffer raises the image error instead of being returned. -/
theorem convertData_identity_counterexample :
    (getMimeType (strCL "json") = strCL "application/json" ∧
      convertData extFail (asciiBytes "x") (strCL "application/json") (strCL "json") =
        .error (strCL "Conversion error: Unable to convert JSON data")) ∧
    (getMimeType (strCL "png") = strCL "image/png" ∧
      convertData extFail (asciiBytes "x") (strCL "image/png") (strCL "png") =
        .error
          (strCL "Unable to convert image: Input buffer contains unsupported image format")) :=
  ⟨⟨rfl, rfl⟩, ⟨rfl, rfl⟩⟩

/-- Claim C1, amended: convertData returns the buffer unchanged whenever the
target extension's implied MIME type equals the source type, except that the
application/json and application/yaml families parse the buffer first — a
parse failure raises a conversion error, identity holds whenever parsing
succeeds — and the image family re-encodes for the five codec extensions
instead of returning the original. -/
theorem convertData_identity_amended {J : Type} (E : ConvExternals J) (data : Bytes)
    (ext T : JStr) (hmime : getMimeType ext = T) :
    ((T = strCL "text/plain" ∨ T = strCL "text/markdown" ∨ T = strCL "text/html" ∨
      T = strCL "text/csv" ∨ T = strCL "application/octet-stream") →
      convertData E data T ext = .ok data) ∧
    (T = strCL "application/json" → (∃ j, E.jsonParse (E.utf8Decode data) = some j) →
      convertData E data T ext = .ok data) ∧
    (T = strCL "application/yaml" → (∃ j, E.yamlLoad (E.utf8Decode data) = some j) →
      convertData E data T ext = .ok data) := by
  refine ⟨?_, ?_, ?_⟩
  · rintro (hT | hT | hT | hT | hT) <;> subst hT
    · rfl
    · have hext := getMimeType_markdown hmime
      subst hext
      rfl
    · have hext := getMimeType_html hmime
      subst hext
      rfl
    · have hext := getMimeType_csv hmime
      subst hext
      rfl
    · rfl
  · intro hT hparse
    subst hT
    have hext := getMimeType_json hmime
    subst hext
    obtain ⟨j, hj⟩ := hparse
    simp only [convertData, convertJson, hj]
    rw [if_neg (by decide), if_neg (by decide), if_neg (by decide), if_pos (by decide),
      if_neg (by decide), if_neg (by decide)]
    rfl
  · intro hT hparse
    subst hT
    obtain ⟨j, hj⟩ := hparse
    rcases getMimeType_yaml hmime with hext | hext <;> subst hext <;>
      · simp only [convertData, convertYaml, hj]
        rw [if_neg (by decide), if_neg (by decide), if_neg (by decide), if_neg (by decide),
          if_pos (by decide), if_neg (by decide)]
        rfl

/-- Witness for the amended C1 at a concrete input: converting the valid JSON
buffer 1 from application/json to the json extension returns it unchanged. -/
theorem convertData_identity_amended_witness :
    getMimeType (strCL "json") = strCL "application/json" ∧
    convertData extOk (asciiBytes "1") (strCL "application/json") (strCL "json") =
      .ok (asciiBytes "1") := by
  refine ⟨rfl, ?_⟩
  exact (convertData_identity_amended extOk (asciiBytes "1") (strCL "json")
    (strCL "application/json") rfl).2.1 rfl ⟨(), by rfl⟩

/-!
Fragment entity and Version Manager (src/model/fragment.js,
src/model/fragment-version.js, src/model/data/memory/index.js,
src/model/data/memory/versions.js; cloud adapter src/model/data/aws/versions.js).
The four in-memory MemoryDB instances are modelled from the spec: the Storage
Adapter contract is put/get/del/list scoped by (ownerId, key), with JavaScript
object insertion-order key listing; memory-db.js itself is not under src.
Metadata values are JSON-serialized on write and parsed on read; the
stringify/parse round trip is the identity, so the model stores the records
structurally.  Timestamps (new Date().toISOString()) are passed in as a `now`
argument.  AWS_REGION is taken to be unset, so the entity methods bind the
in-memory versions adapter.
-/

/-- The Fragment entity's fields (also its persisted metadata shape). -/
structure Fragment where
  id : JStr
  ownerId : JStr
  created : JStr
  updated : JStr
  type : JStr
  size : Int
deriving DecidableEq

/-- The FragmentVersion record's fields. -/
structure FragmentVersion where
  id : JStr
  fragmentId : JStr
  ownerId : JStr
  created : JStr
  updated : JStr
  type : JStr
  size : Int
  versionNum : Nat
deriving DecidableEq

/-- Model of the external content-type library's parse: the media-type part
before the first semicolon, trimmed, validated as token slash token, and
lowercased; none models the thrown TypeError for an invalid media type. -/
def isTokenChar (c : Char) : Bool :=
  c.isAlpha || c.isDigit || (strCL "!#$%&'*+.^_`|~-").contains c

/-- See isTokenChar: the parsed (lowercased) media type of a content-type
string, or none when the media type is invalid. -/
def contentTypeParseType (s : JStr) : Option JStr :=
  let t := jsTrim (s.takeWhile fun c => c != ';')
  match splitOnChar '/' t with
  | [a, b] =>
    if a ≠ [] ∧ b ≠ [] ∧ a.all isTokenChar ∧ b.all isTokenChar then some (jsToLower t)
    else none
  | _ => none

/-- Fragment.isSupportedType: parse the content type (an unparsable value is
unsupported, never an exception), strip parameters, and test membership in
the supported list; the text-plain-with-charset disjunct can never fire
because the parsed type contains no semicolon. -/
def Fragment.isSupportedType (value : JStr) : Bool :=
  match contentTypeParseType value with
  | none => false
  | some t =>
    let baseType := jsTrim (t.takeWhile fun c => c != ';')
    let supportedTypes : List JStr :=
      [strCL "text/plain", strCL "text/markdown", strCL "text/html", strCL "text/csv",
        strCL "application/json", strCL "application/yaml", strCL "application/yml",
        strCL "image/png", strCL "image/jpeg", strCL "image/webp", strCL "image/avif",
        strCL "image/gif"]
    supportedTypes.any fun supportedType =>
      decide (baseType = supportedType) ||
        (decide (baseType = strCL "text/plain") && jsStartsWith (strCL "text/plain;") t)

/-- The Fragment constructor: validation (a falsy required string is the empty
string; the size type check always passes on numbers), then defaulting of id,
created and updated.  genId stands for the randomUUID call, now for the
current time. -/
def mkFragment (id : Option JStr) (ownerId : JStr) (created updated : Option JStr)
    (type : JStr) (size : Int) (genId now : JStr) : Except JStr Fragment :=
  if ownerId = [] then .error (strCL "ownerId is required")
  else if type = [] then .error (strCL "type is required")
  else if size < 0 then .error (strCL "size cannot be negative")
  else if ¬ Fragment.isSupportedType type then .error (strCL "invalid type")
  else
    let created' := created.getD now
    .ok ⟨id.getD genId, ownerId, created', updated.getD created', type, size⟩

/-- The FragmentVersion constructor: required fragmentId, ownerId and type,
numeric size, and a truthy numeric versionNum (zero is rejected); id defaults
to the composite version id, created to now, updated to created. -/
def mkFragmentVersion (id : Option JStr) (fragmentId ownerId : JStr)
    (created updated : Option JStr) (type : JStr) (size : Int) (versionNum : Nat)
    (now : JStr) : Except JStr FragmentVersion :=
  if fragmentId = [] then .error (strCL "fragmentId is required")
  else if ownerId = [] then .error (strCL "ownerId is required")
  else if type = [] then .error (strCL "type is required")
  else if versionNum = 0 then .error (strCL "versionNum must be a number")
  else
    let created' := created.getD now
    .ok ⟨id.getD (toVersionId fragmentId versionNum), fragmentId, ownerId, created',
      updated.getD created', type, size, versionNum⟩

/-- Fragment.mimeType: the parsed media type of the fragment's type string;
none models the throw on an unparsable type. -/
def Fragment.mimeType (f : Fragment) : Option JStr := contentTypeParseType f.type

/-- Fragment.formats: the per-family conversion-target table keyed on the
parsed base MIME type, with the final fallback returning the subtype as the
only extension. -/
def Fragment.formats (f : Fragment) : Option (List JStr) :=
  match f.mimeType with
  | none => none
  | some mt =>
    let baseMimeType := jsTrim (mt.takeWhile fun c => c != ';')
    if baseMimeType = strCL "text/plain" then some [strCL "text/plain"]
    else if baseMimeType = strCL "text/markdown" then
      some [strCL "md", strCL "html", strCL "txt"]
    else if baseMimeType = strCL "text/html" then some [strCL "html", strCL "txt"]
    else if baseMimeType = strCL "text/csv" then
      some [strCL "csv", strCL "txt", strCL "json"]
    else if baseMimeType = strCL "application/json" then
      some [strCL "json", strCL "txt"]
    else if baseMimeType = strCL "application/yaml" ∨ baseMimeType = strCL "application/yml" then
      some [strCL "yaml", strCL "yml", strCL "json", strCL "txt"]
    else if jsStartsWith (strCL "image/") baseMimeType then
      some [strCL "png", strCL "jpg", strCL "jpeg", strCL "webp", strCL "gif", strCL "avif"]
    else
      match (splitOnChar '/' baseMimeType).get? 1 with
      | some ext => if ext = [] then some [] else some [ext]
      | none => some []

/-- Fragment.canConvert: the text/plain family is special-cased to the txt or
text/plain extension only; markdown, html and images use inline lists; every
other family falls through to membership in the formats list (none models the
throw formats can raise on an unparsable type). -/
def Fragment.canConvert (f : Fragment) (extension : JStr) : Option Bool :=
  if jsStartsWith (strCL "text/plain") f.type then
    some (decide (extension = strCL "text/plain") || decide (extension = strCL "txt"))
  else if f.type = strCL "text/markdown" then
    some (([strCL "md", strCL "html", strCL "txt"] : List JStr).contains extension)
  else if f.type = strCL "text/html" then
    some (([strCL "html", strCL "txt"] : List JStr).contains extension)
  else if jsStartsWith (strCL "image/") f.type then
    some (([strCL "png", strCL "jpg", strCL "jpeg", strCL "webp", strCL "gif",
      strCL "avif"] : List JStr).contains extension)
  else
    (f.formats).map fun fmts => fmts.contains extension

-- The in-memory key-value stores (modelled from the spec, see the section
-- comment): association lists keyed by (ownerId, key), insertion-ordered,
-- with put replacing in place.

/-- MemoryDB.put: replace the value under an existing key in place, append a
fresh key at the end (JavaScript object insertion order). -/
def dbPut {α : Type} (db : List ((JStr × JStr) × α)) (owner key : JStr) (v : α) :
    List ((JStr × JStr) × α) :=
  if db.any fun e => decide (e.1 = (owner, key)) then
    db.map fun e => if e.1 = (owner, key) then ((owner, key), v) else e
  else db ++ [((owner, key), v)]

/-- MemoryDB.get: the value under a key, none when absent (undefined). -/
def dbGet {α : Type} (db : List ((JStr × JStr) × α)) (owner key : JStr) : Option α :=
  (db.find? fun e => decide (e.1 = (owner, key))).map fun e => e.2

/-- Object.keys of one owner's partition, in insertion order. -/
def dbKeys {α : Type} (db : List ((JStr × JStr) × α)) (owner : JStr) : List JStr :=
  (db.filter fun e => decide (e.1.1 = owner)).map fun e => e.1.2

/-- The process state: the two fragment stores of memory/index.js and the two
version stores of memory/versions.js. -/
structure MemState where
  fragMetaDB : List ((JStr × JStr) × Fragment)
  fragDataDB : List ((JStr × JStr) × Bytes)
  versionMetaDB : List ((JStr × JStr) × FragmentVersion)
  versionDataDB : List ((JStr × JStr) × Bytes)
deriving DecidableEq

/-- memory/index.js writeFragment: serialize and store the metadata under
(ownerId, id). -/
def writeFragment (st : MemState) (fragment : Fragment) : MemState :=
  { st with fragMetaDB := dbPut st.fragMetaDB fragment.ownerId fragment.id fragment }

/-- memory/index.js writeFragmentData. -/
def writeFragmentData (st : MemState) (ownerId id : JStr) (buffer : Bytes) : MemState :=
  { st with fragDataDB := dbPut st.fragDataDB ownerId id buffer }

/-- memory/index.js readFragmentData: undefined (none) when absent. -/
def readFragmentData (st : MemState) (ownerId id : JStr) : Option Bytes :=
  dbGet st.fragDataDB ownerId id

/-- memory/versions.js writeFragmentVersion. -/
def writeFragmentVersion (st : MemState) (version : FragmentVersion) : MemState :=
  { st with versionMetaDB := dbPut st.versionMetaDB version.ownerId version.id version }

/-- memory/versions.js readFragmentVersion: the stored record (the
serialize/parse round trip is the identity), none when absent. -/
def readFragmentVersion (st : MemState) (ownerId versionId : JStr) :
    Option FragmentVersion :=
  dbGet st.versionMetaDB ownerId versionId

/-- memory/versions.js writeFragmentVersionData. -/
def writeFragmentVersionData (st : MemState) (ownerId versionId : JStr)
    (buffer : Bytes) : MemState :=
  { st with versionDataDB := dbPut st.versionDataDB ownerId versionId buffer }

/-- memory/versions.js readFragmentVersionData: none when absent. -/
def readFragmentVersionData (st : MemState) (ownerId versionId : JStr) : Option Bytes :=
  dbGet st.versionDataDB ownerId versionId

/-- The untyped JavaScript return of the listing: full metadata records when
expanded, otherwise just version ids (the early empty return is the empty
value of whichever shape the caller requested). -/
inductive VersionsListing
  | metas : List FragmentVersion → VersionsListing
  | ids : List JStr → VersionsListing
deriving DecidableEq

/-- The comparator b.versionNum - a.versionNum: descending by version
number. -/
def descVN (a b : FragmentVersion) : Prop := b.versionNum ≤ a.versionNum

instance : DecidableRel descVN := fun a b => Nat.decLe b.versionNum a.versionNum

instance : IsTotal FragmentVersion descVN :=
  ⟨fun a b => (Nat.le_total b.versionNum a.versionNum).symm.symm⟩

instance : IsTrans FragmentVersion descVN :=
  ⟨fun _ _ _ hab hbc => Nat.le_trans hbc hab⟩

/-- Array.prototype.sort with the descending versionNum comparator, modelled
as insertion sort (a sorted permutation; order among ties is unspecified in
the source). -/
def sortByVersionNumDesc (l : List FragmentVersion) : List FragmentVersion :=
  List.insertionSort descVN l

/-- memory/versions.js listFragmentVersions: the owner's version ids filtered
to those starting with the fragment id and the separator, an early empty
return when none match, then either each record (nulls filtered) sorted
descending, or the bare ids.  The body is total in this model, so the
catch-all return of the empty array is unreachable. -/
def listFragmentVersions (st : MemState) (ownerId fragmentId : JStr)
    (expand : Bool) : VersionsListing :=
  let allVersionIds := dbKeys st.versionMetaDB ownerId
  let fragmentVersionIds :=
    allVersionIds.filter (jsStartsWith (fragmentId ++ strCL "_v"))
  if fragmentVersionIds.length = 0 then
    if expand then .metas [] else .ids []
  else if expand then
    let versions := fragmentVersionIds.map fun vid => readFragmentVersion st ownerId vid
    .metas (sortByVersionNumDesc (versions.filterMap fun x => x))
  else .ids fragmentVersionIds

/-- memory/versions.js getLatestVersionNumber: zero when no versions exist,
otherwise the versionNum at the head of the descending re-sort (the nil match
arm is unreachable: sorting a nonempty list is nonempty); the catch-all
return of zero is unreachable in this total model. -/
def getLatestVersionNumber (st : MemState) (ownerId fragmentId : JStr) : Nat :=
  match listFragmentVersions st ownerId fragmentId true with
  | .ids _ => 0
  | .metas versions =>
    if versions.length = 0 then 0
    else
      match sortByVersionNumDesc versions with
      | [] => 0
      | latest :: _ => latest.versionNum

/-- aws/versions.js listFragmentVersions: parametrised by the DynamoDB query
outcome (error models a rejected send, which the catch logs and rethrows;
none models a response without Items).  Without expand the item ids are
returned (empty for a missing Items), with expand the items sorted by
versionNum descending. -/
def awsListFragmentVersions (sendResult : Except JStr (Option (List FragmentVersion)))
    (expand : Bool) : Except JStr VersionsListing :=
  match sendResult with
  | .error e => .error e
  | .ok dataItems =>
    if expand = false then .ok (.ids ((dataItems.getD []).map fun item => item.id))
    else .ok (.metas (sortByVersionNumDesc (dataItems.getD [])))

/-- Fragment.save: refresh updated and persist the metadata (the memory
adapter's write cannot fail, so the catch is unreachable). -/
def Fragment.save (f : Fragment) (st : MemState) (now : JStr) : Fragment × MemState :=
  let f' := { f with updated := now }
  (f', writeFragment st f')

/-- Fragment.getData: read the raw bytes; a missing buffer models the
TypeError thrown when the debug log takes the length of undefined. -/
def Fragment.getData (f : Fragment) (st : MemState) : Except JStr Bytes :=
  match readFragmentData st f.ownerId f.id with
  | some data => .ok data
  | none => .error (strCL "Cannot read length of undefined")

/-- Fragment.setData: write the buffer, recompute size from its length,
refresh updated, then save the metadata; total in the memory model. -/
def Fragment.setData (f : Fragment) (data : Bytes) (st : MemState) (now : JStr) :
    Fragment × MemState :=
  let st1 := writeFragmentData st f.ownerId f.id data
  let f1 := { f with size := (data.length : Int), updated := now }
  Fragment.save f1 st1 now

/-- Fragment.createVersion (memory adapter): next number is the latest plus
one, the composite id is derived, the FragmentVersion constructor validates,
the current bytes are read (throwing when absent), then version metadata and
version data are persisted in that order. -/
def Fragment.createVersion (f : Fragment) (st : MemState) (now : JStr) :
    Except JStr (FragmentVersion × MemState) :=
  let lastVersionNum := getLatestVersionNumber st f.ownerId f.id
  let newVersionNum := lastVersionNum + 1
  let versionId := toVersionId f.id newVersionNum
  match mkFragmentVersion (some versionId) f.id f.ownerId (some now) none f.type f.size
      newVersionNum now with
  | .error e => .error e
  | .ok version =>
    match f.getData st with
    | .error e => .error e
    | .ok data =>
      let st1 := writeFragmentVersion st version
      let st2 := writeFragmentVersionData st1 f.ownerId versionId data
      .ok (version, st2)

/-- Fragment.getVersions (memory adapter): delegate to the listing. -/
def Fragment.getVersions (f : Fragment) (st : MemState) (expand : Bool) :
    VersionsListing :=
  listFragmentVersions st f.ownerId f.id expand

/-- Fragment.getVersion: the inner try turns a parse failure or an ownership
mismatch into a null return; then a missing metadata record is null, and the
metadata is paired with the (possibly missing) data.  The outer rethrow is
unreachable in the total memory model, so the result is never an error. -/
def Fragment.getVersion (f : Fragment) (st : MemState) (versionId : JStr) :
    Except JStr (Option (FragmentVersion × Option Bytes)) :=
  match parseVersionId versionId with
  | .error _ => .ok none
  | .ok parsed =>
    if parsed.fragmentId ≠ f.id then .ok none
    else
      match readFragmentVersion st f.ownerId versionId with
      | none => .ok none
      | some version =>
        let data := readFragmentVersionData st f.ownerId versionId
        .ok (some (version, data))

/-- Fragment.restoreVersion: a parse failure or ownership mismatch is
rethrown as the invalid-format error; missing version data is the distinct
version-data-not-found error; otherwise the version's bytes overwrite the
current content through setData. -/
def Fragment.restoreVersion (f : Fragment) (st : MemState) (versionId now : JStr) :
    Except JStr (Fragment × MemState) :=
  match parseVersionId versionId with
  | .error _ => .error (strCL "Invalid version ID format")
  | .ok parsed =>
    if parsed.fragmentId ≠ f.id then
      .error (strCL "Invalid version ID format: Version does not belong to this fragment")
    else
      match readFragmentVersionData st f.ownerId versionId with
      | none => .error (strCL "Version data not found")
      | some versionData => .ok (Fragment.setData f versionData st now)

-- Shared concrete fixtures for witnesses.

/-- A sample owner id. -/
def sampleOwner : JStr := strCL "owner-123"

/-- A sample text/plain fragment, as in the repository's unit tests. -/
def sampleFrag : Fragment :=
  ⟨strCL "test-id", sampleOwner, strCL "t0", strCL "t0", strCL "text/plain", 10⟩

/-- A sample state: the fragment's bytes are stored, and version 2 has stored
data under the composite id. -/
def sampleSt : MemState :=
  ⟨[], [((sampleOwner, strCL "test-id"), asciiBytes "hi")], [],
    [((sampleOwner, strCL "test-id_v2"), asciiBytes "re")]⟩

/-- Claim C2: the code contradicts the spec table and its own unit test.  For
every fragment typed application/json, formats returns only json and txt: the
yaml and yml conversion targets are missing (the unit test expects formats to
contain yaml; convertData does support json to yaml). -/
theorem formats_json_missing_yaml (f : Fragment)
    (h : f.type = strCL "application/json") :
    f.formats = some [strCL "json", strCL "txt"] ∧
    ∀ l, f.formats = some l → strCL "yaml" ∉ l ∧ strCL "yml" ∉ l := by
  have hf : f.formats = some [strCL "json", strCL "txt"] := by
    rw [Fragment.formats, Fragment.mimeType, h]
    rfl
  refine ⟨hf, ?_⟩
  intro l hl
  rw [hf] at hl
  have hl' : l = [strCL "json", strCL "txt"] := by
    injection hl with h1
    exact h1.symm
  subst hl'
  constructor <;> decide

/-- Witness for C2 at the unit test's input: a fragment of type
application/json. -/
theorem formats_json_missing_yaml_witness :
    (Fragment.mk (strCL "test-id") sampleOwner (strCL "t0") (strCL "t0")
        (strCL "application/json") 0).formats = some [strCL "json", strCL "txt"] ∧
    strCL "yaml" ∉ [strCL "json", strCL "txt"] ∧
    strCL "yml" ∉ [strCL "json", strCL "txt"] := by
  have h := formats_json_missing_yaml
    (Fragment.mk (strCL "test-id") sampleOwner (strCL "t0") (strCL "t0")
      (strCL "application/json") 0) rfl
  have h2 := h.2 _ h.1
  exact ⟨h.1, h2.1, h2.2⟩

/-- Claim C7: for a version id that is unparsable or whose embedded fragment
id is not the fragment's own, getVersion resolves to null (ok none, never an
error), while restoreVersion rejects with a thrown error. -/
theorem getVersion_null_restoreVersion_throws (f : Fragment) (st : MemState)
    (vid now : JStr)
    (h : ∀ p, parseVersionId vid = .ok p → p.fragmentId ≠ f.id) :
    Fragment.getVersion f st vid = .ok none ∧
    ∃ e, Fragment.restoreVersion f st vid now = .error e := by
  rcases hp : parseVersionId vid with e | p
  · constructor
    · rw [Fragment.getVersion, hp]
    · exact ⟨_, by rw [Fragment.restoreVersion, hp]⟩
  · have hne : p.fragmentId ≠ f.id := h p hp
    constructor
    · rw [Fragment.getVersion, hp]
      simp [hne]
    · refine ⟨strCL "Invalid version ID format: Version does not belong to this fragment", ?_⟩
      rw [Fragment.restoreVersion, hp]
      simp [hne]

/-- Witness for C7 at the unit tests' inputs: the unparsable id and an id
belonging to a different fragment. -/
theorem getVersion_null_restoreVersion_throws_witness :
    Fragment.getVersion sampleFrag sampleSt (strCL "invalid-version-id") = .ok none ∧
    (∃ e, Fragment.restoreVersion sampleFrag sampleSt (strCL "invalid-version-id")
      (strCL "t1") = .error e) ∧
    Fragment.getVersion sampleFrag sampleSt (strCL "other-id_v1") = .ok none := by
  have h1 := getVersion_null_restoreVersion_throws sampleFrag sampleSt
    (strCL "invalid-version-id") (strCL "t1")
    (fun p hp => absurd hp (by rw [show parseVersionId (strCL "invalid-version-id") =
      .error .invalidFormat from rfl]; exact fun hc => Except.noConfusion hc))
  have h2 := getVersion_null_restoreVersion_throws sampleFrag sampleSt
    (strCL "other-id_v1") (strCL "t1")
    (fun p hp => by
      rw [show parseVersionId (strCL "other-id_v1") =
        .ok ⟨strCL "other-id", 1⟩ from rfl] at hp
      injection hp with hp
      rw [← hp]
      decide)
  exact ⟨h1.1, h1.2, h2.1⟩

/-- Claim C8: after setData the fragment's size equals the written buffer's
length (hence nonnegative), and the constructor rejects a negative size, so
a successfully constructed fragment has nonnegative size. -/
theorem setData_size_invariant :
    (∀ (f : Fragment) (data : Bytes) (st : MemState) (now : JStr),
      (Fragment.setData f data st now).1.size = (data.length : Int) ∧
      0 ≤ (Fragment.setData f data st now).1.size) ∧
    (∀ (id : Option JStr) (ownerId : JStr) (created updated : Option JStr)
      (type : JStr) (size : Int) (genId now : JStr) (g : Fragment),
      mkFragment id ownerId created updated type size genId now = .ok g →
      0 ≤ g.size) := by
  constructor
  · intro f data st now
    refine ⟨rfl, ?_⟩
    have h : (Fragment.setData f data st now).1.size = (data.length : Int) := rfl
    rw [h]
    exact Int.natCast_nonneg _
  · intro id ownerId created updated type size genId now g hg
    rw [mkFragment] at hg
    split_ifs at hg with h1 h2 h3 h4
    all_goals try exact absurd hg fun hc => Except.noConfusion hc
    simp only [Except.ok.injEq] at hg
    have hsize : g.size = size := by rw [← hg]
    omega

/-- Witness for C8 at concrete inputs: a constructed text/plain fragment and
a two-byte write. -/
theorem setData_size_invariant_witness :
    0 ≤ (⟨strCL "id1", sampleOwner, strCL "t0", strCL "t0", strCL "text/plain", 7⟩ :
      Fragment).size ∧
    (Fragment.setData sampleFrag (asciiBytes "hi") sampleSt (strCL "t1")).1.size =
      ((asciiBytes "hi").length : Int) := by
  constructor
  · exact setData_size_invariant.2 (some (strCL "id1")) sampleOwner none none
      (strCL "text/plain") 7 (strCL "gen") (strCL "t0")
      ⟨strCL "id1", sampleOwner, strCL "t0", strCL "t0", strCL "text/plain", 7⟩
      (by rfl)
  · exact (setData_size_invariant.1 sampleFrag (asciiBytes "hi") sampleSt (strCL "t1")).1

/-- Claim C9: a successful restoreVersion changes only the fragment's current
content (and its size/updated metadata record): both version stores are left
exactly as they were — no version record is created, deleted or modified —
and the current content store receives the restored bytes. -/
theorem restoreVersion_frame (f : Fragment) (st : MemState) (vid now : JStr)
    (f' : Fragment) (st' : MemState)
    (h : Fragment.restoreVersion f st vid now = .ok (f', st')) :
    st'.versionMetaDB = st.versionMetaDB ∧ st'.versionDataDB = st.versionDataDB ∧
    ∃ vdata, readFragmentVersionData st f.ownerId vid = some vdata ∧
      st'.fragDataDB = dbPut st.fragDataDB f.ownerId f.id vdata ∧
      f'.size = (vdata.length : Int) := by
  rw [Fragment.restoreVersion] at h
  split at h
  · exact absurd h (by simp)
  · split at h
    · exact absurd h (by simp)
    · split at h
      · exact absurd h (by simp)
      · rename_i vdata hread
        simp only [Except.ok.injEq] at h
        have hf' : f' = (Fragment.setData f vdata st now).1 := by rw [h]
        have hst' : st' = (Fragment.setData f vdata st now).2 := by rw [h]
        subst hf'
        subst hst'
        exact ⟨rfl, rfl, vdata, hread, rfl, rfl⟩

/-- Witness for C9: restoring version 2 of the sample fragment succeeds and
leaves both version stores untouched. -/
theorem restoreVersion_frame_witness :
    (Fragment.restoreVersion sampleFrag sampleSt (strCL "test-id_v2") (strCL "t1") =
      .ok
        (⟨strCL "test-id", sampleOwner, strCL "t0", strCL "t1", strCL "text/plain", 2⟩,
          ⟨[((sampleOwner, strCL "test-id"),
              ⟨strCL "test-id", sampleOwner, strCL "t0", strCL "t1",
                strCL "text/plain", 2⟩)],
            [((sampleOwner, strCL "test-id"), asciiBytes "re")], [],
            [((sampleOwner, strCL "test-id_v2"), asciiBytes "re")]⟩)) ∧
    (⟨[((sampleOwner, strCL "test-id"),
        ⟨strCL "test-id", sampleOwner, strCL "t0", strCL "t1", strCL "text/plain", 2⟩)],
      [((sampleOwner, strCL "test-id"), asciiBytes "re")], [],
      [((sampleOwner, strCL "test-id_v2"), asciiBytes "re")]⟩ :
        MemState).versionMetaDB = sampleSt.versionMetaDB := by
  constructor
  · rfl
  · exact (restoreVersion_frame sampleFrag sampleSt (strCL "test-id_v2") (strCL "t1")
      _ _ (by rfl)).1

-- String lemmas for the text/plain family analysis.

theorem jsStartsWith_exists : ∀ (p s : JStr), jsStartsWith p s = true → ∃ r, s = p ++ r
  | [], s, _ => ⟨s, rfl⟩
  | p :: ps, [], h => by simp [jsStartsWith] at h
  | p :: ps, c :: cs, h => by
    rw [jsStartsWith] at h
    simp only [Bool.and_eq_true, decide_eq_true_eq] at h
    obtain ⟨he, hrest⟩ := h
    obtain ⟨r, hr⟩ := jsStartsWith_exists ps cs hrest
    refine ⟨r, ?_⟩
    rw [List.cons_append, ← he, hr]

theorem takeWhile_append_all2 (p : Char → Bool) (a b : JStr)
    (h : ∀ c ∈ a, p c = true) :
    (a ++ b).takeWhile p = a ++ b.takeWhile p := by
  induction a with
  | nil => rfl
  | cons c t ih =>
    have hc := h c (by simp)
    have ht := ih fun x hx => h x (by simp [hx])
    simp [List.takeWhile_cons, hc, ht]

theorem dropWhile_append_split (p : Char → Bool) (xs ys : JStr) :
    (xs ++ ys).dropWhile p =
      if xs.dropWhile p = [] then ys.dropWhile p else xs.dropWhile p ++ ys := by
  induction xs with
  | nil => simp
  | cons c t ih =>
    by_cases hc : p c = true
    · simp only [List.cons_append, List.dropWhile_cons, hc, if_true]
      rw [ih]
    · have hc' : p c = false := by
        cases hpc : p c
        · rfl
        · exact absurd hpc hc
      simp [List.dropWhile_cons, hc']

theorem jsTrimLeft_tp (y : JStr) :
    jsTrimLeft (strCL "text/plain" ++ y) = strCL "text/plain" ++ y := by
  have h : strCL "text/plain" ++ y = 't' :: (strCL "ext/plain" ++ y) := rfl
  rw [h, jsTrimLeft, List.dropWhile_cons, if_neg (by decide)]

theorem jsTrim_tp_append (x : JStr) :
    ∃ u, jsTrim (strCL "text/plain" ++ x) = strCL "text/plain" ++ u := by
  rw [jsTrim, jsTrimRight, List.reverse_append, dropWhile_append_split]
  by_cases hx : x.reverse.dropWhile isWsChar = []
  · rw [if_pos hx]
    refine ⟨[], ?_⟩
    rw [show List.dropWhile isWsChar (strCL "text/plain").reverse =
      (strCL "text/plain").reverse from rfl]
    rw [List.reverse_reverse]
    rw [show jsTrimLeft (strCL "text/plain") = strCL "text/plain" from rfl]
    simp
  · rw [if_neg hx]
    refine ⟨(x.reverse.dropWhile isWsChar).reverse, ?_⟩
    rw [List.reverse_append, List.reverse_reverse]
    exact jsTrimLeft_tp _

theorem tp_append_mem (u : JStr)
    (h : (strCL "text/plain" ++ u) ∈
      ([strCL "text/plain", strCL "text/markdown", strCL "text/html", strCL "text/csv",
        strCL "application/json", strCL "application/yaml", strCL "application/yml",
        strCL "image/png", strCL "image/jpeg", strCL "image/webp", strCL "image/avif",
        strCL "image/gif"] : List JStr)) : u = [] := by
  simp only [List.mem_cons, List.not_mem_nil, or_false] at h
  rcases h with h|h|h|h|h|h|h|h|h|h|h|h
  · have hlen := congrArg List.length h
    simp only [List.length_append] at hlen
    exact List.eq_nil_of_length_eq_zero (by omega)
  all_goals {
    have h10 := congrArg (List.take (strCL "text/plain").length) h
    rw [List.take_left] at h10
    exact absurd h10 (by decide) }

/-- For a supported type string starting with the text text/plain, the parsed
media type exists and its parameter-stripped trimmed base is exactly
text/plain. -/
theorem tp_baseMime (s : JStr) (hsw : jsStartsWith (strCL "text/plain") s = true)
    (hsupp : Fragment.isSupportedType s = true) :
    ∃ t, contentTypeParseType s = some t ∧
      jsTrim (t.takeWhile fun c => c != ';') = strCL "text/plain" := by
  obtain ⟨r, rfl⟩ := jsStartsWith_exists _ _ hsw
  rcases hparse : contentTypeParseType (strCL "text/plain" ++ r) with _ | t
  · rw [Fragment.isSupportedType, hparse] at hsupp
    exact absurd hsupp (by simp)
  refine ⟨t, rfl, ?_⟩
  have htw := takeWhile_append_all2 (fun c => c != ';') (strCL "text/plain") r (by decide)
  obtain ⟨u, hu⟩ := jsTrim_tp_append (r.takeWhile fun c => c != ';')
  have ht : t = strCL "text/plain" ++ jsToLower u := by
    rw [contentTypeParseType] at hparse
    simp only [htw, hu] at hparse
    split at hparse
    · split at hparse
      · simp only [Option.some.injEq] at hparse
        rw [← hparse, jsToLower, List.map_append]
        rw [show List.map Char.toLower (strCL "text/plain") = strCL "text/plain" from rfl]
        rfl
      · exact absurd hparse (by simp)
    · exact absurd hparse (by simp)
  obtain ⟨u2, hu2⟩ := jsTrim_tp_append ((jsToLower u).takeWhile fun c => c != ';')
  have hbt : jsTrim (t.takeWhile fun c => c != ';') = strCL "text/plain" ++ u2 := by
    rw [ht, takeWhile_append_all2 _ _ _ (by decide), hu2]
  rw [Fragment.isSupportedType, hparse] at hsupp
  simp only [List.any_eq_true] at hsupp
  obtain ⟨st, hmem, hpred⟩ := hsupp
  rw [Bool.or_eq_true, Bool.and_eq_true] at hpred
  rcases hpred with hpred | ⟨hpred, _⟩
  · rw [decide_eq_true_eq] at hpred
    rw [hbt] at hpred
    rw [← hpred] at hmem
    have hu2nil := tp_append_mem u2 hmem
    rw [hbt, hu2nil]
    simp
  · rw [decide_eq_true_eq] at hpred
    exact hpred

/-- Claim C10: for every fragment whose type string starts with text/plain,
canConvert is true exactly for the txt or text/plain extensions, while the
formats list is just text/plain (which does not contain txt): the text/plain
conversion gate is not membership in the formats list. -/
theorem canConvert_text_plain_family (f : Fragment) (x : JStr)
    (hty : jsStartsWith (strCL "text/plain") f.type = true)
    (hsupp : Fragment.isSupportedType f.type = true) :
    (f.canConvert x = some true ↔ (x = strCL "txt" ∨ x = strCL "text/plain")) ∧
    f.formats = some [strCL "text/plain"] ∧
    (∀ l, f.formats = some l → strCL "txt" ∉ l) := by
  have hfor : f.formats = some [strCL "text/plain"] := by
    obtain ⟨t, hpt, hbase⟩ := tp_baseMime f.type hty hsupp
    rw [Fragment.formats, Fragment.mimeType, hpt]
    simp only [hbase]
    rw [if_pos trivial]
  refine ⟨?_, hfor, ?_⟩
  · rw [Fragment.canConvert, if_pos hty]
    simp only [Option.some.injEq, Bool.or_eq_true, decide_eq_true_eq]
    exact or_comm
  · intro l hl
    rw [hfor] at hl
    injection hl with hl
    rw [← hl]
    decide

/-- Witness for C10 at the unit test's fragment: type text/plain and the txt
extension. -/
theorem canConvert_text_plain_family_witness :
    (sampleFrag.canConvert (strCL "txt") = some true ↔
      (strCL "txt" = strCL "txt" ∨ strCL "txt" = strCL "text/plain")) ∧
    sampleFrag.formats = some [strCL "text/plain"] := by
  have h := canConvert_text_plain_family sampleFrag (strCL "txt") (by decide) (by decide)
  exact ⟨h.1, h.2.1⟩

/-- Claim C4, counterexample: the cloud adapter's listing does not swallow
internal failures — a failed DynamoDB query send is rethrown by the catch
block, so the listing produces a thrown error, not an empty sequence. -/
theorem awsList_error_counterexample :
    awsListFragmentVersions (.error (strCL "DynamoDB query failed")) true =
      .error (strCL "DynamoDB query failed") ∧
    awsListFragmentVersions (.error (strCL "DynamoDB query failed")) true ≠
      .ok (.metas []) :=
  ⟨rfl, fun h => Except.noConfusion h⟩

/-- Claim C4, amended: the in-memory listing is total (it cannot throw in
this model), returns metadata sorted by versionNum descending, and returns
the empty sequence when no version ids match; the cloud listing returns the
empty sequence when the query yields no items but propagates (rethrows) an
internal query failure instead of returning empty. -/
theorem listFragmentVersions_amended (st : MemState) (o fid : JStr) :
    (∃ ms, listFragmentVersions st o fid true = .metas ms ∧ List.Sorted descVN ms ∧
      (((dbKeys st.versionMetaDB o).filter (jsStartsWith (fid ++ strCL "_v"))) = [] →
        ms = [])) ∧
    (∀ items : Option (List FragmentVersion),
      ∃ ms, awsListFragmentVersions (.ok items) true = .ok (.metas ms) ∧
        List.Sorted descVN ms ∧ (items.getD [] = [] → ms = [])) ∧
    (∀ e : JStr, awsListFragmentVersions (.error e) true = .error e) := by
  refine ⟨?_, ?_, fun e => rfl⟩
  · by_cases hlen :
      ((dbKeys st.versionMetaDB o).filter (jsStartsWith (fid ++ strCL "_v"))).length = 0
    · refine ⟨[], ?_, List.sorted_nil, fun _ => rfl⟩
      simp only [listFragmentVersions]
      rw [if_pos hlen, if_pos trivial]
    · refine ⟨sortByVersionNumDesc
        ((((dbKeys st.versionMetaDB o).filter (jsStartsWith (fid ++ strCL "_v"))).map
          fun vid => readFragmentVersion st o vid).filterMap fun x => x), ?_, ?_, ?_⟩
      · simp only [listFragmentVersions]
        rw [if_neg hlen, if_pos trivial]
      · exact List.sorted_insertionSort descVN _
      · intro hc
        rw [hc] at hlen
        exact absurd rfl hlen
  · intro items
    refine ⟨sortByVersionNumDesc (items.getD []), rfl, List.sorted_insertionSort descVN _, ?_⟩
    intro h
    rw [h]
    rfl

/-- Witness for the amended C4: the empty state lists no versions, and a
failing query propagates its error. -/
theorem listFragmentVersions_amended_witness :
    listFragmentVersions ⟨[], [], [], []⟩ sampleOwner (strCL "test-id") true =
      .metas [] ∧
    awsListFragmentVersions (.error (strCL "boom")) true = .error (strCL "boom") := by
  obtain ⟨⟨ms, hms, _hsort, hempty⟩, _, herr⟩ :=
    listFragmentVersions_amended ⟨[], [], [], []⟩ sampleOwner (strCL "test-id")
  constructor
  · have hnil : ms = [] := hempty rfl
    rw [hnil] at hms
    exact hms
  · exact herr (strCL "boom")

-- Version-numbering analysis (claim C3): the entries of the version metadata
-- store that the listing attributes to one fragment.

/-- Whether a version-store entry belongs to this owner and carries the
fragment's id-with-separator prefix (the listing's filter). -/
def vKeyMatch (o fid : JStr) (e : (JStr × JStr) × FragmentVersion) : Bool :=
  decide (e.1.1 = o) && jsStartsWith (fid ++ strCL "_v") e.1.2

/-- The version metadata entries the listing attributes to the fragment. -/
def fragVersionEntries (st : MemState) (o fid : JStr) :
    List ((JStr × JStr) × FragmentVersion) :=
  st.versionMetaDB.filter (vKeyMatch o fid)

/-- The version record createVersion builds for version number j of the
fragment (created and updated both equal to the call time). -/
def vrec (f : Fragment) (now : JStr) (j : Nat) : FragmentVersion :=
  ⟨toVersionId f.id j, f.id, f.ownerId, now, now, f.type, f.size, j⟩

/-- The store entries after k snapshots: versions 1..k in insertion order. -/
def rangeEntries (f : Fragment) (now : JStr) (k : Nat) :
    List ((JStr × JStr) × FragmentVersion) :=
  (List.range k).map fun i => ((f.ownerId, toVersionId f.id (i + 1)), vrec f now (i + 1))

/-- N consecutive createVersion calls on the same fragment, stopping at the
first failure. -/
def iterCreate (f : Fragment) (now : JStr) : Nat → MemState → Except JStr MemState
  | 0, st => .ok st
  | n + 1, st =>
    match Fragment.createVersion f st now with
    | .error e => .error e
    | .ok (_, st') => iterCreate f now n st'

/-- Invariant after k snapshots starting from st0: the fragment's version
entries are exactly versions 1..k, and the fragment data store is
untouched. -/
def createInv (f : Fragment) (now : JStr) (st0 : MemState) (k : Nat)
    (st : MemState) : Prop :=
  fragVersionEntries st f.ownerId f.id = rangeEntries f now k ∧
  st.fragDataDB = st0.fragDataDB

theorem jsStartsWith_append (a b : JStr) : jsStartsWith a (a ++ b) = true := by
  induction a with
  | nil => rfl
  | cons c t ih => simp [jsStartsWith, ih]

theorem toVersionId_pre (fid : JStr) (j : Nat) :
    toVersionId fid j = (fid ++ strCL "_v") ++ natDigits j := by
  rw [toVersionId, List.append_assoc]
  rfl

theorem toVersionId_inj {fid : JStr} {a b : Nat}
    (h : toVersionId fid a = toVersionId fid b) : a = b := by
  rw [toVersionId_pre, toVersionId_pre] at h
  have h2 := List.append_cancel_left h
  have h3 := congrArg jsDigitsToNat h2
  rw [jsDigitsToNat_natDigits, jsDigitsToNat_natDigits] at h3
  exact h3

theorem jsStartsWith_toVersionId (fid : JStr) (j : Nat) :
    jsStartsWith (fid ++ strCL "_v") (toVersionId fid j) = true := by
  rw [toVersionId_pre]
  exact jsStartsWith_append _ _

theorem find?_filter_of_imp {α : Type} (p q : α → Bool) (l : List α)
    (h : ∀ e, p e = true → q e = true) :
    l.find? p = (l.filter q).find? p := by
  induction l with
  | nil => rfl
  | cons e t ih =>
    cases hp : p e with
    | false =>
      cases hq : q e with
      | false => simp [List.find?_cons, List.filter_cons, hp, hq, ih]
      | true => simp [List.find?_cons, List.filter_cons, hp, hq, ih]
    | true =>
      have hq := h e hp
      simp [List.find?_cons, List.filter_cons, hp, hq]

theorem rangeEntries_succ (f : Fragment) (now : JStr) (k : Nat) :
    rangeEntries f now (k + 1) =
      rangeEntries f now k ++
        [((f.ownerId, toVersionId f.id (k + 1)), vrec f now (k + 1))] := by
  rw [rangeEntries, rangeEntries, List.range_succ, List.map_append]
  rfl

theorem find?_rangeEntries (f : Fragment) (now : JStr) (k j : Nat) :
    (rangeEntries f now k).find?
        (fun e => decide (e.1 = (f.ownerId, toVersionId f.id j))) =
      if 1 ≤ j ∧ j ≤ k then
        some ((f.ownerId, toVersionId f.id j), vrec f now j)
      else none := by
  induction k with
  | zero =>
    rw [if_neg (by omega)]
    rfl
  | succ k ih =>
    rw [rangeEntries_succ, List.find?_append, ih]
    by_cases hj : 1 ≤ j ∧ j ≤ k
    · rw [if_pos hj, if_pos (by omega)]
      rfl
    · rw [if_neg hj]
      by_cases hjk : j = k + 1
      · subst hjk
        rw [if_pos (by omega)]
        simp [List.find?_cons]
      · rw [if_neg (by omega)]
        have hne : ((f.ownerId, toVersionId f.id (k + 1)) :
            JStr × JStr) ≠ (f.ownerId, toVersionId f.id j) := by
          intro hc
          exact hjk (toVersionId_inj (congrArg Prod.snd hc)).symm
        simp [List.find?_cons, hne]

theorem readFragmentVersion_of_entries (f : Fragment) (now : JStr) (st : MemState)
    (k j : Nat)
    (hinv : fragVersionEntries st f.ownerId f.id = rangeEntries f now k)
    (hj : 1 ≤ j ∧ j ≤ k) :
    readFragmentVersion st f.ownerId (toVersionId f.id j) = some (vrec f now j) := by
  have himp : ∀ e : (JStr × JStr) × FragmentVersion,
      (fun e => decide (e.1 = (f.ownerId, toVersionId f.id j))) e = true →
      vKeyMatch f.ownerId f.id e = true := by
    intro e hp
    rw [decide_eq_true_eq] at hp
    rw [vKeyMatch, hp]
    simp [jsStartsWith_toVersionId]
  rw [readFragmentVersion, dbGet,
    find?_filter_of_imp _ (vKeyMatch f.ownerId f.id) _ himp]
  have hentries : st.versionMetaDB.filter (vKeyMatch f.ownerId f.id) =
      rangeEntries f now k := hinv
  rw [hentries, find?_rangeEntries, if_pos hj]
  rfl

theorem entries_keys (st : MemState) (o fid : JStr) :
    (dbKeys st.versionMetaDB o).filter (jsStartsWith (fid ++ strCL "_v")) =
      (fragVersionEntries st o fid).map fun e => e.1.2 := by
  rw [dbKeys, List.filter_map, List.filter_filter, fragVersionEntries]
  have hcongr : List.filter
      (fun a => (jsStartsWith (fid ++ strCL "_v") ∘ fun e => e.1.2) a &&
        decide (a.1.1 = o)) st.versionMetaDB =
      List.filter (vKeyMatch o fid) st.versionMetaDB := by
    apply List.filter_congr
    intro a _
    simp [vKeyMatch, Function.comp, Bool.and_comm]
  rw [hcongr]

theorem sort_head_max (l : List FragmentVersion) (v : FragmentVersion)
    (rest : List FragmentVersion) (h : sortByVersionNumDesc l = v :: rest) :
    v ∈ l ∧ ∀ x ∈ l, x.versionNum ≤ v.versionNum := by
  have hperm := List.perm_insertionSort descVN l
  rw [sortByVersionNumDesc] at h
  constructor
  · have hv : v ∈ List.insertionSort descVN l := by
      rw [h]
      simp
    exact hperm.subset hv
  · intro x hx
    have hx' : x ∈ List.insertionSort descVN l := hperm.symm.subset hx
    rw [h] at hx'
    rcases List.mem_cons.mp hx' with hx' | hx'
    · rw [hx']
    · have hs := List.sorted_insertionSort descVN l
      rw [h] at hs
      exact List.rel_of_sorted_cons hs x hx'

theorem getLatest_of_entries (f : Fragment) (now : JStr) (st : MemState) (k : Nat)
    (hinv : fragVersionEntries st f.ownerId f.id = rangeEntries f now k) :
    getLatestVersionNumber st f.ownerId f.id = k := by
  have hids : (dbKeys st.versionMetaDB f.ownerId).filter
      (jsStartsWith (f.id ++ strCL "_v")) =
      (List.range k).map fun i => toVersionId f.id (i + 1) := by
    rw [entries_keys, hinv, rangeEntries, List.map_map]
    rfl
  cases k with
  | zero =>
    simp only [getLatestVersionNumber, listFragmentVersions, hids]
    simp
  | succ k' =>
    have hreads : ((List.range (k' + 1)).map fun i => toVersionId f.id (i + 1)).map
        (fun vid => readFragmentVersion st f.ownerId vid) =
        (List.range (k' + 1)).map fun i => some (vrec f now (i + 1)) := by
      rw [List.map_map]
      apply List.map_congr_left
      intro i hi
      rw [List.mem_range] at hi
      exact readFragmentVersion_of_entries f now st (k' + 1) (i + 1) hinv
        ⟨by omega, by omega⟩
    have hfm : ((List.range (k' + 1)).map fun i => some (vrec f now (i + 1))).filterMap
        (fun x => x) = (List.range (k' + 1)).map fun i => vrec f now (i + 1) := by
      rw [List.filterMap_map]
      show List.filterMap (some ∘ fun i => vrec f now (i + 1)) (List.range (k' + 1)) = _
      rw [List.filterMap_eq_map]
    set recs := (List.range (k' + 1)).map fun i => vrec f now (i + 1) with hrecs
    have hlist : listFragmentVersions st f.ownerId f.id true =
        .metas (sortByVersionNumDesc recs) := by
      simp only [listFragmentVersions, hids]
      rw [if_neg (by simp), if_pos trivial, hreads, hfm]
    have hlen : (sortByVersionNumDesc recs).length = k' + 1 := by
      rw [sortByVersionNumDesc, List.length_insertionSort, hrecs, List.length_map,
        List.length_range]
    rw [getLatestVersionNumber, hlist]
    show (if (sortByVersionNumDesc recs).length = 0 then 0
      else
        match sortByVersionNumDesc (sortByVersionNumDesc recs) with
        | [] => 0
        | latest :: _ => latest.versionNum) = k' + 1
    rw [if_neg (by omega)]
    cases hsort : sortByVersionNumDesc (sortByVersionNumDesc recs) with
    | nil =>
      have : (sortByVersionNumDesc (sortByVersionNumDesc recs)).length = 0 := by
        rw [hsort]
        rfl
      rw [sortByVersionNumDesc, List.length_insertionSort, hlen] at this
      omega
    | cons v rest =>
      obtain ⟨hvmem, hvmax⟩ := sort_head_max _ v rest hsort
      have hperm := List.perm_insertionSort descVN recs
      have hvrecs : v ∈ recs := hperm.subset hvmem
      have hub : v.versionNum ≤ k' + 1 := by
        rw [hrecs] at hvrecs
        obtain ⟨i, hi, hv⟩ := List.mem_map.mp hvrecs
        rw [List.mem_range] at hi
        rw [← hv]
        simp only [vrec]
        omega
      have hlb : k' + 1 ≤ v.versionNum := by
        have hkmem : vrec f now (k' + 1) ∈ recs := by
          rw [hrecs]
          exact List.mem_map.mpr ⟨k', List.mem_range.mpr (by omega), rfl⟩
        have hkmem' : vrec f now (k' + 1) ∈ sortByVersionNumDesc recs :=
          hperm.symm.subset hkmem
        have := hvmax _ hkmem'
        simpa [vrec] using this
      show v.versionNum = k' + 1
      omega

theorem createVersion_step (f : Fragment) (now : JStr) (st0 st : MemState) (k : Nat)
    (hid : f.id ≠ []) (howner : f.ownerId ≠ []) (htype : f.type ≠ [])
    (hdata : readFragmentData st0 f.ownerId f.id ≠ none)
    (hinv : createInv f now st0 k st) :
    ∃ st', Fragment.createVersion f st now = .ok (vrec f now (k + 1), st') ∧
      createInv f now st0 (k + 1) st' := by
  obtain ⟨hentries, hfd⟩ := hinv
  have hentries' : st.versionMetaDB.filter (vKeyMatch f.ownerId f.id) =
      rangeEntries f now k := hentries
  have hlatest := getLatest_of_entries f now st k hentries
  have hmk : mkFragmentVersion (some (toVersionId f.id (k + 1))) f.id f.ownerId
      (some now) none f.type f.size (k + 1) now = .ok (vrec f now (k + 1)) := by
    rw [mkFragmentVersion, if_neg hid, if_neg howner, if_neg htype, if_neg (by omega)]
    rfl
  obtain ⟨d, hd⟩ : ∃ d, readFragmentData st f.ownerId f.id = some d := by
    rw [readFragmentData, hfd]
    cases hcase : readFragmentData st0 f.ownerId f.id with
    | none => exact absurd hcase hdata
    | some d => exact ⟨d, hcase⟩
  have hgd : Fragment.getData f st = .ok d := by
    rw [Fragment.getData, hd]
  have hfresh : ¬ (st.versionMetaDB.any
      (fun e => decide (e.1 = (f.ownerId, toVersionId f.id (k + 1)))) = true) := by
    rw [List.any_eq_true]
    rintro ⟨e, hmem, hkey⟩
    rw [decide_eq_true_eq] at hkey
    have hmatch : vKeyMatch f.ownerId f.id e = true := by
      rw [vKeyMatch, hkey]
      simp [jsStartsWith_toVersionId]
    have hefil : e ∈ st.versionMetaDB.filter (vKeyMatch f.ownerId f.id) :=
      List.mem_filter.mpr ⟨hmem, hmatch⟩
    rw [hentries', rangeEntries] at hefil
    simp only [List.mem_map, List.mem_range] at hefil
    obtain ⟨i, hik, hei⟩ := hefil
    rw [← hei] at hkey
    have := toVersionId_inj (congrArg Prod.snd hkey)
    omega
  refine ⟨writeFragmentVersionData (writeFragmentVersion st (vrec f now (k + 1)))
    f.ownerId (toVersionId f.id (k + 1)) d, ?_, ?_, ?_⟩
  · rw [Fragment.createVersion]
    simp only [hlatest, hmk, hgd]
  · show List.filter (vKeyMatch f.ownerId f.id)
      (dbPut st.versionMetaDB f.ownerId (toVersionId f.id (k + 1))
        (vrec f now (k + 1))) = rangeEntries f now (k + 1)
    rw [dbPut, if_neg hfresh, List.filter_append, hentries', rangeEntries_succ]
    have hnew : List.filter (vKeyMatch f.ownerId f.id)
        [((f.ownerId, toVersionId f.id (k + 1)), vrec f now (k + 1))] =
        [((f.ownerId, toVersionId f.id (k + 1)), vrec f now (k + 1))] := by
      rw [List.filter_cons]
      rw [if_pos (by rw [vKeyMatch]; simp [jsStartsWith_toVersionId])]
      rfl
    rw [hnew]
  · show st.fragDataDB = st0.fragDataDB
    exact hfd

theorem iterCreate_ok (f : Fragment) (now : JStr) (st0 : MemState)
    (hid : f.id ≠ []) (howner : f.ownerId ≠ []) (htype : f.type ≠ [])
    (hdata : readFragmentData st0 f.ownerId f.id ≠ none) :
    ∀ (n k : Nat) (st : MemState), createInv f now st0 k st →
      ∃ st', iterCreate f now n st = .ok st' ∧ createInv f now st0 (k + n) st' := by
  intro n
  induction n with
  | zero =>
    intro k st hinv
    exact ⟨st, rfl, by simpa using hinv⟩
  | succ n ih =>
    intro k st hinv
    obtain ⟨st1, hcv, hinv1⟩ :=
      createVersion_step f now st0 st k hid howner htype hdata hinv
    obtain ⟨st', hiter, hinv'⟩ := ih (k + 1) st1 hinv1
    refine ⟨st', ?_, ?_⟩
    · simp only [iterCreate, hcv]
      exact hiter
    · have harith : k + 1 + n = k + (n + 1) := by omega
      rw [← harith]
      exact hinv'

/-- Claim C3: starting from a state with no versions of the fragment (and its
content present), N consecutive createVersion calls all succeed and leave the
fragment's stored version records with versionNum exactly 1, 2, ..., N — no
gaps, no repeats — and the latest-version lookup (max existing, 0 when none,
so the first version is 1) returns N. -/
theorem createVersion_numbering (f : Fragment) (st0 : MemState) (now : JStr) (N : Nat)
    (hid : f.id ≠ []) (howner : f.ownerId ≠ []) (htype : f.type ≠ [])
    (hvac : fragVersionEntries st0 f.ownerId f.id = [])
    (hdata : readFragmentData st0 f.ownerId f.id ≠ none) :
    ∃ stN, iterCreate f now N st0 = .ok stN ∧
      (fragVersionEntries stN f.ownerId f.id).map (fun e => e.2.versionNum) =
        (List.range N).map (fun i => i + 1) ∧
      getLatestVersionNumber stN f.ownerId f.id = N := by
  have hinv0 : createInv f now st0 0 st0 := ⟨by rw [hvac]; rfl, rfl⟩
  obtain ⟨stN, hiter, hentN, _⟩ :=
    iterCreate_ok f now st0 hid howner htype hdata N 0 st0 hinv0
  have hentN' : fragVersionEntries stN f.ownerId f.id = rangeEntries f now N := by
    rw [hentN]
    norm_num
  refine ⟨stN, hiter, ?_, getLatest_of_entries f now stN N hentN'⟩
  rw [hentN', rangeEntries, List.map_map]
  rfl

/-- Witness for C3 at a concrete input: two consecutive snapshots of the
sample fragment from a state with its content stored and no versions yield
version numbers exactly 1, 2 and latest-version 2. -/
theorem createVersion_numbering_witness :
    (iterCreate sampleFrag (strCL "t1") 2 sampleSt).toOption.map
        (fun st2 =>
          ((fragVersionEntries st2 sampleOwner (strCL "test-id")).map
              fun e => e.2.versionNum,
            getLatestVersionNumber st2 sampleOwner (strCL "test-id"))) =
      some ([1, 2], 2) := by
  obtain ⟨stN, hiter, hmap, hlatest⟩ := createVersion_numbering sampleFrag sampleSt
    (strCL "t1") 2 (by decide) (by decide) (by decide) rfl (by decide)
  rw [hiter]
  have h12 : (List.range 2).map (fun i => i + 1) = [1, 2] := rfl
  rw [h12] at hmap
  have e1 : (fragVersionEntries stN sampleOwner (strCL "test-id")).map
      (fun e => e.2.versionNum) = [1, 2] := hmap
  have e2 : getLatestVersionNumber stN sampleOwner (strCL "test-id") = 2 := hlatest
  show some ((fragVersionEntries stN sampleOwner (strCL "test-id")).map
      (fun e => e.2.versionNum),
    getLatestVersionNumber stN sampleOwner (strCL "test-id")) = some ([1, 2], 2)
  rw [e1, e2]
